import Mathlib

/-!
# Verification of the pep8 AST naming checker (`pep8ext/astchecker.py`)

A shallow embedding of the checker: the syntax-tree node model, the two
annotation pre-passes (`tag_class_functions`, `find_global_defs`), the
recursive traversal (`ASTChecker.run` / `ASTChecker._run` / `visit_node`),
the diagnostic builder (`_err`) and the five registered rule classes
(`ClassNameCheck`, `FunctionNameCheck`, `FunctionArgNamesCheck`,
`ImportAsCheck`, `VariablesInFunctionCheck`), together with theorems
settling the specification claims.

Modelling conventions:
* The Python 3 branches of the source are embedded (`get_arg_names` from
  `node.args.args`/`node.args.kwonlyargs`, `ast.iter_child_nodes`); the
  Python 2 compatibility shims are dead code on Python 3 and are not
  modelled.
* In-place node mutation (`node.function_type = ...`,
  `func_def_node.global_names = ...`) is modelled functionally: the two
  pre-passes return the annotated node, and the traversal threads the
  annotated node into rule dispatch, the ancestor chain and the recursion,
  exactly as the mutated object flows in the source.
* Regex matching with `re.match` anchored by a trailing `$` is modelled as
  full-string matching (`$` can also match before a trailing newline, but
  identifiers never contain newlines).
-/

/-! ## Name-style predicates

`LOWERCASE_REGEX = re.compile(r'[_a-z][_a-z0-9]*$')`,
`UPPERCASE_REGEX = re.compile(r'[_A-Z][_A-Z0-9]*$')`,
`MIXEDCASE_REGEX = re.compile(r'_?[A-Z][a-zA-Z0-9]*$')`, each used with
`.match`, i.e. anchored at the start and (by `$`) at the end. -/

/-- A character of the class `[_a-z]`. -/
def isLowerStart (c : Char) : Bool := c == '_' || c.isLower

/-- A character of the class `[_a-z0-9]`. -/
def isLowerCont (c : Char) : Bool := c == '_' || c.isLower || c.isDigit

/-- A character of the class `[_A-Z]`. -/
def isUpperStart (c : Char) : Bool := c == '_' || c.isUpper

/-- A character of the class `[_A-Z0-9]`. -/
def isUpperCont (c : Char) : Bool := c == '_' || c.isUpper || c.isDigit

/-- Whether `LOWERCASE_REGEX.match s` succeeds: `s` matches `[_a-z][_a-z0-9]*$`. -/
def lowercaseMatch (s : String) : Bool :=
  match s.data with
  | [] => false
  | c :: cs => isLowerStart c && cs.all isLowerCont

/-- Whether `UPPERCASE_REGEX.match s` succeeds: `s` matches `[_A-Z][_A-Z0-9]*$`. -/
def uppercaseMatch (s : String) : Bool :=
  match s.data with
  | [] => false
  | c :: cs => isUpperStart c && cs.all isUpperCont

/-- The `[A-Z][a-zA-Z0-9]*$` part of `MIXEDCASE_REGEX`. -/
def capWordsTail : List Char → Bool
  | [] => false
  | c :: cs => c.isUpper && cs.all (fun d => d.isAlphanum)

/-- Whether `MIXEDCASE_REGEX.match s` succeeds: `s` matches `_?[A-Z][a-zA-Z0-9]*$`.
An optional single leading underscore is consumed by `_?`; if the first
character is `_` the backtracking alternative (leaving the `_` for `[A-Z]`)
can never succeed, so the leading underscore is simply stripped. -/
def mixedcaseMatch (s : String) : Bool :=
  match s.data with
  | [] => false
  | '_' :: cs => capWordsTail cs
  | l => capWordsTail l

/-! ## The node model

The slice of the Python `ast` node shapes that the checker inspects:
`ClassDef`, `FunctionDef`, `Assign`, `Call`, `Name`, `Global`,
`ImportFrom`; every other node kind (`Module`, `Expr`, ...) is represented
by `Node.other` with its kind name and child list.  Each node carries its
source position (`lineno`, `col_offset`).  The two checker annotations
stored on nodes by the pre-passes (`function_type`, `global_names`) are
`Option`-valued fields of `FunctionDef`, `none` meaning the attribute has
not been set (so `getattr(node, 'function_type', 'function')` falls back
to its default). -/

/-- The argument record of a `FunctionDef` (`node.args`), restricted to the
fields the checker reads.  On the targeted Python 3 versions
`args.vararg`/`args.kwarg` are plain strings (or `None`). -/
structure Arguments where
  args : List String
  vararg : Option String
  kwonlyargs : List String
  kwarg : Option String
deriving Repr, DecidableEq

/-- One `alias` entry of an `ImportFrom` node: the imported name and the
optional `as` name. -/
structure ImportAlias where
  name : String
  asname : Option String
deriving Repr, DecidableEq

/-- Syntax-tree nodes.  For definitions the decorator expressions are kept
as a node list (`decorator_list`).  The fields `functionType` and
`globalNames` of `functiondef` model the checker-written attributes
`function_type` and `global_names`. -/
inductive Node where
  | classdef (lineno col_offset : Nat) (name : String)
      (body decorator_list : List Node)
  | functiondef (lineno col_offset : Nat) (name : String) (args : Arguments)
      (body decorator_list : List Node)
      (functionType : Option String) (globalNames : Option (List String))
  | assign (lineno col_offset : Nat) (targets : List Node) (value : Node)
  | call (lineno col_offset : Nat) (func : Node) (args : List Node)
  | name (lineno col_offset : Nat) (id : String)
  | globalStmt (lineno col_offset : Nat) (names : List String)
  | importfrom (lineno col_offset : Nat) (names : List ImportAlias)
  | other (lineno col_offset : Nat) (kind : String) (children : List Node)
deriving Repr

/-- The `lineno` field of a node. -/
def linenoOf : Node → Nat
  | .classdef l _ _ _ _ => l
  | .functiondef l _ _ _ _ _ _ _ => l
  | .assign l _ _ _ => l
  | .call l _ _ _ => l
  | .name l _ _ => l
  | .globalStmt l _ _ => l
  | .importfrom l _ _ => l
  | .other l _ _ _ => l

/-- The `col_offset` field of a node. -/
def colOffsetOf : Node → Nat
  | .classdef _ c _ _ _ => c
  | .functiondef _ c _ _ _ _ _ _ => c
  | .assign _ c _ _ => c
  | .call _ c _ _ => c
  | .name _ c _ => c
  | .globalStmt _ c _ => c
  | .importfrom _ c _ => c
  | .other _ c _ _ => c

/-- The `function_type` annotation of a `FunctionDef` (absent on every
other kind). -/
def functionTypeOf : Node → Option String
  | .functiondef _ _ _ _ _ _ ft _ => ft
  | _ => none

/-- The `global_names` annotation of a `FunctionDef` (absent on every
other kind). -/
def globalNamesOf : Node → Option (List String)
  | .functiondef _ _ _ _ _ _ _ gn => gn
  | _ => none

/-- The `body` list of a `ClassDef` (used to state claims about
`tag_class_functions`). -/
def classBody : Node → List Node
  | .classdef _ _ _ body _ => body
  | _ => []

/-- The function `ast.iter_child_nodes`, restricted to the node kinds modelled here, in
Python field order.  Child slots that can never contain a node any
pre-pass or registered rule reacts to are omitted: `ClassDef.bases` and
`ClassDef.keywords`, the `arguments` child of a `FunctionDef`, the `ctx`
child of a `Name`, the `alias` children of an `ImportFrom`, and
`Call.keywords` hold only expression/context nodes, never statements, so
they contain no `Assign`, `Global`, `FunctionDef`, `ClassDef` or
`ImportFrom` and produce no diagnostics. -/
def ast_iter_nodes : Node → List Node
  | .classdef _ _ _ body decorator_list => body ++ decorator_list
  | .functiondef _ _ _ _ body decorator_list _ _ => body ++ decorator_list
  | .assign _ _ targets value => targets ++ [value]
  | .call _ _ func args => func :: args
  | .name _ _ _ => []
  | .globalStmt _ _ _ => []
  | .importfrom _ _ _ => []
  | .other _ _ _ children => children

/-! ## A size measure for recursion over the tree

`nsize` counts nodes; it deliberately ignores the annotation fields so
that the annotation pre-passes preserve it, which justifies termination of
the traversal over annotated children. -/

mutual

/-- Number of nodes in a tree (annotation fields do not contribute). -/
def nsize : Node → Nat
  | .classdef _ _ _ body decorator_list => 1 + nsizeL body + nsizeL decorator_list
  | .functiondef _ _ _ _ body decorator_list _ _ => 1 + nsizeL body + nsizeL decorator_list
  | .assign _ _ targets value => 1 + nsizeL targets + nsize value
  | .call _ _ func args => 1 + nsize func + nsizeL args
  | .name _ _ _ => 1
  | .globalStmt _ _ _ => 1
  | .importfrom _ _ _ => 1
  | .other _ _ _ children => 1 + nsizeL children

/-- Total number of nodes in a list of trees. -/
def nsizeL : List Node → Nat
  | [] => 0
  | n :: ns => nsize n + nsizeL ns

end

theorem nsize_pos (n : Node) : 0 < nsize n := by
  cases n <;> simp [nsize]

theorem nsizeL_append (l₁ l₂ : List Node) :
    nsizeL (l₁ ++ l₂) = nsizeL l₁ + nsizeL l₂ := by
  induction l₁ with
  | nil => simp [nsizeL]
  | cons a t ih => simp [nsizeL, ih]; omega

theorem nsizeL_reverse (l : List Node) : nsizeL l.reverse = nsizeL l := by
  induction l with
  | nil => rfl
  | cons a t ih => simp [nsizeL, List.reverse_cons, nsizeL_append, ih]; omega

theorem nsizeL_iter_lt (n : Node) : nsizeL (ast_iter_nodes n) < nsize n := by
  cases n <;> simp [ast_iter_nodes, nsize, nsizeL, nsizeL_append]

/-! ## The rule registry

The metaclass `_ASTCheckMeta` instantiates every subclass of
`BaseASTCheck` at class-definition time and appends the instance to the
process-wide list `BaseASTCheck._checks`.  The five rule classes of the
module are therefore registered, in definition order.  A rule is
identified here by a value of `Rule`; per-class data (the code/message
attributes and the visit handlers) are functions over it. -/

/-- The five concrete rule classes defined in the module, i.e. the
possible elements of the registry `BaseASTCheck._checks`. -/
inductive Rule where
  | classNameCheck
  | functionNameCheck
  | functionArgNamesCheck
  | importAsCheck
  | variablesInFunctionCheck
deriving Repr, DecidableEq

/-- The registry `BaseASTCheck._checks` as populated by importing the
module: one instance per rule class, in class-definition order. -/
def BaseASTCheck.checks : List Rule :=
  [Rule.classNameCheck, Rule.functionNameCheck, Rule.functionArgNamesCheck,
   Rule.importAsCheck, Rule.variablesInFunctionCheck]

/-- Message attribute `ClassNameCheck.E800`. -/
def ClassNameCheck.E800 : String := "class names should use CapWords convention"

/-- Message attribute `FunctionNameCheck.E801`. -/
def FunctionNameCheck.E801 : String := "function name should be lowercase"

/-- Message attribute `FunctionArgNamesCheck.E802`. -/
def FunctionArgNamesCheck.E802 : String := "argument name should be lowercase"

/-- Message attribute `FunctionArgNamesCheck.E803`. -/
def FunctionArgNamesCheck.E803 : String :=
  "first argument of a classmethod should be named \x27cls\x27"

/-- Message attribute `FunctionArgNamesCheck.E804`. -/
def FunctionArgNamesCheck.E804 : String :=
  "first argument of a method should be named \x27self\x27"

/-- Message attribute `ImportAsCheck.W800`. -/
def ImportAsCheck.W800 : String := "constant imported as non constant"

/-- Message attribute `ImportAsCheck.W801`. -/
def ImportAsCheck.W801 : String := "lowercase imported as non lowercase"

/-- Message attribute `ImportAsCheck.W802`. -/
def ImportAsCheck.W802 : String := "camelcase imported as lowercase"

/-- Message attribute `ImportAsCheck.W803`. -/
def ImportAsCheck.W803 : String := "camelcase imported as constant"

/-- Message attribute `VariablesInFunctionCheck.E805`. -/
def VariablesInFunctionCheck.E805 : String :=
  "variable in function should be lowercase"

/-- The attribute lookup `getattr(self, code)` performed by `_err` when it
formats the message.  Looking up a code a rule class does not define would
raise `AttributeError`; no rule emits such a code, and the catch-all
returns the empty string. -/
def codeText : Rule → String → String
  | .classNameCheck, "E800" => ClassNameCheck.E800
  | .functionNameCheck, "E801" => FunctionNameCheck.E801
  | .functionArgNamesCheck, "E802" => FunctionArgNamesCheck.E802
  | .functionArgNamesCheck, "E803" => FunctionArgNamesCheck.E803
  | .functionArgNamesCheck, "E804" => FunctionArgNamesCheck.E804
  | .importAsCheck, "W800" => ImportAsCheck.W800
  | .importAsCheck, "W801" => ImportAsCheck.W801
  | .importAsCheck, "W802" => ImportAsCheck.W802
  | .importAsCheck, "W803" => ImportAsCheck.W803
  | .variablesInFunctionCheck, "E805" => VariablesInFunctionCheck.E805
  | _, _ => ""

/-- The tuple `(lineno, col_offset, '%s %s' % (code, msg), self)` returned
by `_err`.  The `source` component is the rule instance (`self`). -/
structure Diagnostic where
  lineno : Nat
  col_offset : Nat
  message : String
  source : Rule
deriving Repr, DecidableEq

/-- The diagnostic builder `_err` (bound as method `err` on
`BaseASTCheck`): reports at the node's position, shifted by the number of
decorator lines and past the `class ` (6 columns) or `def ` (4 columns)
keyword for definition nodes. -/
def err (self : Rule) (node : Node) (code : String) : Diagnostic :=
  match node with
  | .classdef lineno col_offset _ _ decorator_list =>
      ⟨lineno + decorator_list.length, col_offset + 6,
       code ++ " " ++ codeText self code, self⟩
  | .functiondef lineno col_offset _ _ _ decorator_list _ _ =>
      ⟨lineno + decorator_list.length, col_offset + 4,
       code ++ " " ++ codeText self code, self⟩
  | _ =>
      ⟨linenoOf node, colOffsetOf node,
       code ++ " " ++ codeText self code, self⟩

/-- Python 3 `get_arg_names`: positional argument names followed by
keyword-only argument names. -/
def get_arg_names : Node → List String
  | .functiondef _ _ _ args _ _ _ _ => args.args ++ args.kwonlyargs
  | _ => []

/-! ## The rule set -/

/-- Handler `ClassNameCheck.visit_classdef`: class names must match
`MIXEDCASE_REGEX` (`check = MIXEDCASE_REGEX.match`). -/
def ClassNameCheck.visit_classdef (node : Node) ( _parents : List Node) :
    List Diagnostic :=
  match node with
  | .classdef _ _ nm _ _ =>
      if !mixedcaseMatch nm then [err Rule.classNameCheck node "E800"] else []
  | _ => []

/-- Handler `FunctionNameCheck.visit_functiondef`: function names must
match `LOWERCASE_REGEX`, and a plain function (role `function`) may not
start or end with a double underscore (`'__' in (name[:2], name[-2:])`). -/
def FunctionNameCheck.visit_functiondef (node : Node) ( _parents : List Node) :
    List Diagnostic :=
  match node with
  | .functiondef _ _ nm _ _ _ ft _ =>
      let function_type := ft.getD "function"
      if (function_type == "function"
            && (nm.take 2 == "__" || nm.takeRight 2 == "__"))
          || !lowercaseMatch nm
      then [err Rule.functionNameCheck node "E801"] else []
  | _ => []

/-- Handler `FunctionArgNamesCheck.visit_functiondef`: the `**kwargs`
name, the `*args` name and every positional/keyword-only argument name
must match `LOWERCASE_REGEX`; on a `method` the first of `get_arg_names`
must be `self`, on a `classmethod` it must be `cls`.  A failing
`**kwargs`/`*args` name yields one E802 and returns immediately; the final
loop yields one E802 at the first failing argument name and returns. -/
def FunctionArgNamesCheck.visit_functiondef (node : Node)
    ( _parents : List Node) : List Diagnostic :=
  match node with
  | .functiondef _ _ _ args _ _ ft _ =>
      if args.kwarg.any (fun kw => !lowercaseMatch kw) then
        [err Rule.functionArgNamesCheck node "E802"]
      else if args.vararg.any (fun va => !lowercaseMatch va) then
        [err Rule.functionArgNamesCheck node "E802"]
      else
        let arg_names := get_arg_names node
        match arg_names with
        | [] => []
        | a0 :: _ =>
            let function_type := ft.getD "function"
            (if function_type == "method" then
               (if a0 != "self" then [err Rule.functionArgNamesCheck node "E804"] else [])
             else if function_type == "classmethod" then
               (if a0 != "cls" then [err Rule.functionArgNamesCheck node "E803"] else [])
             else []) ++
            (if arg_names.any (fun a => !lowercaseMatch a) then
               [err Rule.functionArgNamesCheck node "E802"]
             else [])
  | _ => []

/-- Handler `ImportAsCheck.visit_importfrom`: for each alias with a truthy
`asname`, cascade through the four rename checks (`check_upper` /
`check_lower` are `UPPERCASE_REGEX.match` / `LOWERCASE_REGEX.match`). -/
def ImportAsCheck.visit_importfrom (node : Node) ( _parents : List Node) :
    List Diagnostic :=
  match node with
  | .importfrom _ _ names =>
      names.flatMap (fun nm =>
        match nm.asname with
        | none => []
        | some asn =>
            if asn == "" then []
            else if uppercaseMatch nm.name then
              (if !uppercaseMatch asn then [err Rule.importAsCheck node "W800"] else [])
            else if lowercaseMatch nm.name then
              (if !lowercaseMatch asn then [err Rule.importAsCheck node "W801"] else [])
            else if lowercaseMatch asn then [err Rule.importAsCheck node "W802"]
            else if uppercaseMatch asn then [err Rule.importAsCheck node "W803"]
            else [])
  | _ => []

/-- The scope search of `VariablesInFunctionCheck.visit_assign`:
`for parent_func in reversed(parents)` — the input list is the reversed
ancestor chain (nearest ancestor first); stop with no scope on the nearest
enclosing `ClassDef`, stop with the function on the nearest enclosing
`FunctionDef`, and give up when the chain is exhausted (`for`/`else`). -/
def enclosingScope : List Node → Option Node
  | [] => none
  | p :: rest =>
      match p with
      | .classdef _ _ _ _ _ => none
      | .functiondef _ _ _ _ _ _ _ _ => some p
      | _ => enclosingScope rest

/-- The target loop of `VariablesInFunctionCheck.visit_assign`: walk the
assignment targets in order; a non-`Name` target (where
`isinstance(target, ast.Name) and target.id` is falsy, which also covers
an empty `id`) or a target found in the enclosing function's
`global_names` aborts the whole loop (`return`); otherwise a target that
fails `LOWERCASE_REGEX` and does not start with `_` yields one E805 at the
target's own position. -/
def checkAssignTargets (global_names : List String) :
    List Node → List Diagnostic
  | [] => []
  | t :: rest =>
      match t with
      | .name _ _ id =>
          if id == "" || id ∈ global_names then []
          else
            (if !lowercaseMatch id && id.take 1 != "_" then
               [err Rule.variablesInFunctionCheck t "E805"]
             else []) ++ checkAssignTargets global_names rest
      | _ => []

/-- Handler `VariablesInFunctionCheck.visit_assign`.  The
`parent_func.global_names` attribute read would raise `AttributeError`
were the enclosing function not yet annotated; during a traversal the
enclosing `FunctionDef` is always annotated before its body is visited
(claim C4), so the `.getD []` total-extension branch is unreachable
there. -/
def VariablesInFunctionCheck.visit_assign (node : Node)
    (parents : List Node) : List Diagnostic :=
  match enclosingScope parents.reverse with
  | none => []
  | some parent_func =>
      match node with
      | .assign _ _ targets _ =>
          checkAssignTargets ((globalNamesOf parent_func).getD []) targets
      | _ => []

/-- Dynamic dispatch `getattr(visitor, 'visit_' + 'classname')`: each rule
class exposes exactly one handler, named after one node kind; a rule whose
handler name does not match the node's kind contributes nothing (the
handlers above already return `[]` on every other node kind, which makes
the `hasattr` guard and the kind test coincide). -/
def Rule.visit (r : Rule) (node : Node) (parents : List Node) :
    List Diagnostic :=
  match r with
  | .classNameCheck => ClassNameCheck.visit_classdef node parents
  | .functionNameCheck => FunctionNameCheck.visit_functiondef node parents
  | .functionArgNamesCheck => FunctionArgNamesCheck.visit_functiondef node parents
  | .importAsCheck => ImportAsCheck.visit_importfrom node parents
  | .variablesInFunctionCheck => VariablesInFunctionCheck.visit_assign node parents

/-! ## The Scope & Role Annotator -/

/-- The first loop of `ASTChecker.tag_class_functions`: scan the class's
children for assignments of the legacy decoration shape
`anything = classmethod(m)` / `anything = staticmethod(m)` (the
assignment's own targets are never inspected), where the call has exactly
one argument and that argument is a bare `Name`.  Each hit records the
entry `meth.id -> func_name`, in child order; the Python `dict` gives
later entries for the same method name precedence, which `dictFind` below
realises by looking the key up from the right.  `lateDecorationEntry` is
the per-child contribution, `lateDecoration` the whole scan. -/
def lateDecorationEntry : Node → List (String × String)
  | Node.assign _ _ _ (Node.call _ _ (Node.name _ _ func_name) [Node.name _ _ meth]) =>
      if func_name == "classmethod" || func_name == "staticmethod" then
        [(meth, func_name)]
      else []
  | _ => []

/-- The mapping built by the first loop, as the ordered list of recorded
entries. -/
def lateDecoration (children : List Node) : List (String × String) :=
  children.flatMap lateDecorationEntry

/-- Lookup in the association list built by `lateDecoration` with Python
`dict` semantics: the most recently recorded entry for a key wins. -/
def dictFind (d : List (String × String)) (k : String) : Option String :=
  List.lookup k d.reverse

/-- The decorator filter of `tag_class_functions`: the decorators that are
bare `Name` references to `classmethod` or `staticmethod`, in decorator
order. -/
def decoratorRoleNames (decorator_list : List Node) : List String :=
  decorator_list.filterMap (fun d =>
    match d with
    | Node.name _ _ did =>
        if did == "classmethod" || did == "staticmethod" then some did else none
    | _ => none)

/-- The per-child tagging step of the second loop of
`tag_class_functions`: a `FunctionDef` child gets `function_type` set to
`'method'`, overridden by the late-decoration mapping if its name is a
key there, otherwise by the first bare `classmethod`/`staticmethod`
decorator if any; any other node is left untouched. -/
def tagFunction (late_decoration : List (String × String)) : Node → Node
  | Node.functiondef l c nm args body decorator_list _ gn =>
      let ft :=
        match dictFind late_decoration nm with
        | some w => w
        | none =>
            if decorator_list.isEmpty then "method"
            else
              match (decoratorRoleNames decorator_list).head? with
              | some w => w
              | none => "method"
      Node.functiondef l c nm args body decorator_list (some ft) gn
  | n => n

/-- `ASTChecker.tag_class_functions`: on a `ClassDef`, build the
late-decoration mapping from the children, then tag every `FunctionDef`
child in place (the children are exactly `body ++ decorator_list`; both
lists are mapped, matching the in-place mutation of every child the
iterator yields).  Any other node is returned unchanged. -/
def ASTChecker.tag_class_functions (cls_node : Node) : Node :=
  match cls_node with
  | Node.classdef l c nm body decorator_list =>
      let ld := lateDecoration (ast_iter_nodes cls_node)
      Node.classdef l c nm (body.map (tagFunction ld))
        (decorator_list.map (tagFunction ld))
  | n => n

theorem nsizeL_tail_lt (n : Node) (rest : List Node) :
    nsizeL rest < nsizeL (n :: rest) := by
  have := nsize_pos n; simp [nsizeL]; omega

theorem nsizeL_push_lt (m : Node) (rest : List Node) :
    nsizeL ((ast_iter_nodes m).reverse ++ rest) < nsizeL (m :: rest) := by
  have := nsizeL_iter_lt m
  simp [nsizeL, nsizeL_append, nsizeL_reverse]; omega

/-- The worklist of `ASTChecker.find_global_defs`.  The source keeps a
`deque` used as a stack (`pop` from the right, `extend` on the right); the
stack is modelled with its top at the head, so pushing the children of a
node prepends them reversed.  A `Global` node contributes its names (it
has no child nodes, so nothing is pushed for it); a nested `FunctionDef`
or `ClassDef` is not descended into; every other node has its children
pushed. -/
def collectGlobals : List Node → List String → List String
  | [], global_names => global_names
  | n :: rest, global_names =>
      match n with
      | Node.globalStmt _ _ names => collectGlobals rest (global_names ++ names)
      | Node.functiondef _ _ _ _ _ _ _ _ => collectGlobals rest global_names
      | Node.classdef _ _ _ _ _ => collectGlobals rest global_names
      | m => collectGlobals ((ast_iter_nodes m).reverse ++ rest) global_names
  termination_by stack _ => nsizeL stack
  decreasing_by all_goals first | apply nsizeL_push_lt | apply nsizeL_tail_lt

/-- `ASTChecker.find_global_defs`: set `global_names` on a `FunctionDef`
to the set of names named by `global` statements reachable from its
children without entering nested `FunctionDef`/`ClassDef` scopes (the
collected list is the set's underlying enumeration; only membership is
ever consulted).  Any other node is returned unchanged. -/
def ASTChecker.find_global_defs (func_def_node : Node) : Node :=
  match func_def_node with
  | Node.functiondef l c nm args body decorator_list ft _ =>
      Node.functiondef l c nm args body decorator_list ft
        (some (collectGlobals (ast_iter_nodes func_def_node).reverse []))
  | n => n

/-- The annotation step at the top of `ASTChecker.visit_node`: a
`ClassDef` gets its functions tagged, a `FunctionDef` gets its global
names computed, anything else passes through. -/
def visitPre (node : Node) : Node :=
  match node with
  | Node.classdef _ _ _ _ _ => ASTChecker.tag_class_functions node
  | Node.functiondef _ _ _ _ _ _ _ _ => ASTChecker.find_global_defs node
  | _ => node

theorem nsize_tagFunction (ld : List (String × String)) (n : Node) :
    nsize (tagFunction ld n) = nsize n := by
  cases n <;> simp [tagFunction, nsize]

theorem nsizeL_map_tagFunction (ld : List (String × String)) (l : List Node) :
    nsizeL (l.map (tagFunction ld)) = nsizeL l := by
  induction l with
  | nil => rfl
  | cons a t ih => simp [nsizeL, nsize_tagFunction, ih]

theorem nsize_visitPre (n : Node) : nsize (visitPre n) = nsize n := by
  cases n <;>
    simp [visitPre, ASTChecker.tag_class_functions, ASTChecker.find_global_defs,
      nsize, nsizeL_map_tagFunction]

/-! ## The traversal engine -/

/-- The dispatch loop of `ASTChecker.visit_node`: every registered rule is
offered the node, in registry order; rules without a handler for the
node's kind contribute nothing. -/
def visitRules (visitors : List Rule) (node : Node) (parents : List Node) :
    List Diagnostic :=
  visitors.flatMap (fun visitor => visitor.visit node parents)

/-- `ASTChecker.visit_node`: annotate (`tag_class_functions` on a
`ClassDef`, `find_global_defs` on a `FunctionDef`) and then dispatch to
the registered rules.  The in-place mutation is returned as the first
component; the yielded diagnostics are the second. -/
def ASTChecker.visit_node (visitors : List Rule) (parents : List Node)
    (node : Node) : Node × List Diagnostic :=
  (visitPre node, visitRules visitors (visitPre node) parents)

theorem twoNsizeL_iter_lt (n : Node) :
    2 * nsizeL (ast_iter_nodes n) + 1 < 2 * nsize n := by
  have := nsizeL_iter_lt n; omega

theorem twoNsizeL_iter_visitPre_lt (node : Node) :
    2 * nsizeL (ast_iter_nodes (visitPre node)) + 1 < 2 * nsize node := by
  have h := twoNsizeL_iter_lt (visitPre node)
  rw [nsize_visitPre] at h; exact h

theorem twoNsize_head_lt (c : Node) (cs : List Node) :
    2 * nsize c < 2 * nsizeL (c :: cs) + 1 := by
  simp [nsizeL]; omega

theorem twoNsizeL_tail_lt (c : Node) (cs : List Node) :
    2 * nsizeL cs + 1 < 2 * nsizeL (c :: cs) + 1 := by
  have := nsize_pos c; simp [nsizeL]; omega

mutual

/-- `ASTChecker._run`: yield the diagnostics of `visit_node` for this
node, push the (annotated) node onto the ancestor chain, recurse into its
children in order, pop.  The ancestor chain `parents` is oldest-first and
excludes the current node. -/
def ASTChecker.runFrom (visitors : List Rule) (parents : List Node)
    (node : Node) : List Diagnostic :=
  visitRules visitors (visitPre node) parents ++
    ASTChecker.runList visitors (parents ++ [visitPre node])
      (ast_iter_nodes (visitPre node))
  termination_by 2 * nsize node
  decreasing_by apply twoNsizeL_iter_visitPre_lt

/-- The child loop of `ASTChecker._run`: diagnostics of the sibling
subtrees, concatenated in child order. -/
def ASTChecker.runList (visitors : List Rule) (parents : List Node) :
    List Node → List Diagnostic
  | [] => []
  | c :: cs =>
      ASTChecker.runFrom visitors parents c ++
        ASTChecker.runList visitors parents cs
  termination_by l => 2 * nsizeL l + 1
  decreasing_by
    · apply twoNsize_head_lt
    · apply twoNsizeL_tail_lt

end

/-- `ASTChecker.run`: `self._run(self._node) if self._node else ()` — an
absent tree (the upstream parser produced nothing) gives the empty
diagnostic sequence; otherwise the recursive walk starts at the root with
an empty ancestor chain. -/
def ASTChecker.run (visitors : List Rule) (tree : Option Node) :
    List Diagnostic :=
  match tree with
  | none => []
  | some t => ASTChecker.runFrom visitors [] t

/-! ## The observation sequence

`observedFrom parents node` is the stream of `(node, ancestors)` pairs
that `visit_node` offers to the registered rules during
`_run(node)`, in yield order: the annotated node itself first, then the
observations of its children, left to right.  It formalises "a rule's
visit handler observes a node" for the invariant and ordering claims. -/

mutual

/-- Pairs `(annotated node, ancestor chain)` dispatched to rules during
`ASTChecker._run`, in dispatch order. -/
def observedFrom (parents : List Node) (node : Node) :
    List (Node × List Node) :=
  (visitPre node, parents) ::
    observedList (parents ++ [visitPre node]) (ast_iter_nodes (visitPre node))
  termination_by 2 * nsize node
  decreasing_by apply twoNsizeL_iter_visitPre_lt

/-- Observations of a list of sibling subtrees, left to right. -/
def observedList (parents : List Node) : List Node → List (Node × List Node)
  | [] => []
  | c :: cs => observedFrom parents c ++ observedList parents cs
  termination_by l => 2 * nsizeL l + 1
  decreasing_by
    · apply twoNsize_head_lt
    · apply twoNsizeL_tail_lt

end

/-! ## Reference characterisation of the global-name pass (for claim C2)

The specification describes `GlobalNameSet` as the names listed in
`global` declarations reachable in the function's body by a traversal that
stops descending at nested `FunctionDef`/`ClassDef` boundaries.  The
following recursive characterisation renders exactly that description; it
is compared with the worklist implementation `collectGlobals` above. -/

mutual

/-- Names declared `global` in the subtree rooted at a child of the
function, never descending into nested `FunctionDef`/`ClassDef`. -/
def specGlobalsIn : Node → List String
  | Node.globalStmt _ _ names => names
  | Node.functiondef _ _ _ _ _ _ _ _ => []
  | Node.classdef _ _ _ _ _ => []
  | n => specGlobalsList (ast_iter_nodes n)
  termination_by n => 2 * nsize n
  decreasing_by apply twoNsizeL_iter_lt

/-- Union (as concatenation) over a list of subtrees. -/
def specGlobalsList : List Node → List String
  | [] => []
  | n :: ns => specGlobalsIn n ++ specGlobalsList ns
  termination_by l => 2 * nsizeL l + 1
  decreasing_by
    · apply twoNsize_head_lt
    · apply twoNsizeL_tail_lt

end

/-! ## Helper lemmas about the traversal -/

/-- Joint strong induction: the yielded diagnostic sequence is the
observation sequence with each observed pair dispatched through the
registry. -/
theorem run_observed_both (V : List Rule) (k : Nat) :
    (∀ parents node, nsize node ≤ k →
      ASTChecker.runFrom V parents node
        = (observedFrom parents node).flatMap (fun p => visitRules V p.1 p.2)) ∧
    (∀ parents l, nsizeL l ≤ k →
      ASTChecker.runList V parents l
        = (observedList parents l).flatMap (fun p => visitRules V p.1 p.2)) := by
  induction k with
  | zero =>
      constructor
      · intro parents node h
        have := nsize_pos node; omega
      · intro parents l h
        cases l with
        | nil => simp [ASTChecker.runList, observedList]
        | cons c cs =>
            exfalso; have := nsize_pos c; simp [nsizeL] at h; omega
  | succ n ih =>
      have hnode : ∀ parents node, nsize node ≤ n + 1 →
          ASTChecker.runFrom V parents node
            = (observedFrom parents node).flatMap (fun p => visitRules V p.1 p.2) := by
        intro parents node h
        rw [ASTChecker.runFrom, observedFrom, List.flatMap_cons]
        congr 1
        apply ih.2
        have := nsizeL_iter_lt (visitPre node)
        rw [nsize_visitPre] at this; omega
      refine ⟨hnode, ?_⟩
      intro parents l hl
      induction l with
      | nil => simp [ASTChecker.runList, observedList]
      | cons c cs ihl =>
          rw [ASTChecker.runList, observedList, List.flatMap_append]
          simp only [nsizeL] at hl
          have hc := nsize_pos c
          rw [hnode parents c (by omega), ihl (by omega)]

/-- The diagnostics of `_run` are exactly the registry dispatched, in
order, over the observation sequence. -/
theorem runFrom_eq_observed (V : List Rule) (parents : List Node)
    (node : Node) :
    ASTChecker.runFrom V parents node
      = (observedFrom parents node).flatMap (fun p => visitRules V p.1 p.2) :=
  (run_observed_both V (nsize node)).1 parents node le_rfl

/-- The observations of sibling subtrees are concatenated in child
order. -/
theorem observedList_eq_flatMap (parents : List Node) (l : List Node) :
    observedList parents l = l.flatMap (observedFrom parents) := by
  induction l with
  | nil => simp [observedList]
  | cons c cs ih => rw [observedList, ih, List.flatMap_cons]

/-- Re-running the global-name pass on an already annotated `FunctionDef`
recomputes the same annotation: the pass reads only the children, which it
does not alter. -/
theorem find_global_defs_stable (n : Node) :
    ASTChecker.find_global_defs (ASTChecker.find_global_defs n)
      = ASTChecker.find_global_defs n := by
  cases n <;> simp [ASTChecker.find_global_defs, ast_iter_nodes]

/-- Joint strong induction for the annotation invariant: every
`FunctionDef` in the observation sequence is annotated (its
`global_names` is present), and re-annotating it changes nothing. -/
theorem observed_invariant_both (k : Nat) :
    (∀ parents node p, nsize node ≤ k → p ∈ observedFrom parents node →
      ∀ l c nm args body decos ft gn,
        p.1 = Node.functiondef l c nm args body decos ft gn →
        (∃ g, gn = some g) ∧ visitPre p.1 = p.1) ∧
    (∀ parents l₀ p, nsizeL l₀ ≤ k → p ∈ observedList parents l₀ →
      ∀ l c nm args body decos ft gn,
        p.1 = Node.functiondef l c nm args body decos ft gn →
        (∃ g, gn = some g) ∧ visitPre p.1 = p.1) := by
  induction k with
  | zero =>
      constructor
      · intro parents node p h
        have := nsize_pos node; omega
      · intro parents l₀ p h hp
        cases l₀ with
        | nil => simp [observedList] at hp
        | cons c cs => exfalso; have := nsize_pos c; simp [nsizeL] at h; omega
  | succ n ih =>
      have hnode : ∀ parents node p, nsize node ≤ n + 1 →
          p ∈ observedFrom parents node →
          ∀ l c nm args body decos ft gn,
            p.1 = Node.functiondef l c nm args body decos ft gn →
            (∃ g, gn = some g) ∧ visitPre p.1 = p.1 := by
        intro parents node p h hp l c nm args body decos ft gn hfd
        rw [observedFrom] at hp
        rcases List.mem_cons.1 hp with hhead | htail
        · subst hhead
          simp only at hfd
          cases node with
          | functiondef l' c' nm' args' body' decos' ft' gn' =>
              constructor
              · simp [visitPre, ASTChecker.find_global_defs] at hfd
                exact ⟨_, hfd.2.2.2.2.2.2.2.symm⟩
              · simp only [hfd]
                have : visitPre (Node.functiondef l c nm args body decos ft gn)
                    = ASTChecker.find_global_defs
                        (Node.functiondef l c nm args body decos ft gn) := rfl
                rw [this, ← hfd, visitPre]
                simp only [visitPre] at hfd ⊢
                exact find_global_defs_stable _
          | classdef l' c' nm' body' decos' =>
              exfalso
              simp [visitPre, ASTChecker.tag_class_functions] at hfd
          | assign l' c' t v => exfalso; simp [visitPre] at hfd
          | call l' c' f a => exfalso; simp [visitPre] at hfd
          | name l' c' i => exfalso; simp [visitPre] at hfd
          | globalStmt l' c' ns => exfalso; simp [visitPre] at hfd
          | importfrom l' c' ns => exfalso; simp [visitPre] at hfd
          | other l' c' kd ch => exfalso; simp [visitPre] at hfd
        · refine ih.2 _ _ p ?_ htail l c nm args body decos ft gn hfd
          have := nsizeL_iter_lt (visitPre node)
          rw [nsize_visitPre] at this; omega
      refine ⟨hnode, ?_⟩
      intro parents l₀ p hl hp l c nm args body decos ft gn hfd
      induction l₀ with
      | nil => simp [observedList] at hp
      | cons c₀ cs ihl =>
          rw [observedList] at hp
          simp only [nsizeL] at hl
          have hc := nsize_pos c₀
          rcases List.mem_append.1 hp with h₁ | h₂
          · exact hnode _ _ p (by omega) h₁ l c nm args body decos ft gn hfd
          · exact ihl (by omega) h₂

/-! ## Helper lemmas about the global-name pass -/

/-- Membership in the reference characterisation, element-wise. -/
theorem mem_specGlobalsList (x : String) (l : List Node) :
    x ∈ specGlobalsList l ↔ ∃ n ∈ l, x ∈ specGlobalsIn n := by
  induction l with
  | nil => simp [specGlobalsList]
  | cons c cs ih =>
      rw [specGlobalsList]
      simp [ih]

/-- The reference characterisation distributes over list append. -/
theorem mem_specGlobalsList_append (x : String) (l₁ l₂ : List Node) :
    x ∈ specGlobalsList (l₁ ++ l₂) ↔
      x ∈ specGlobalsList l₁ ∨ x ∈ specGlobalsList l₂ := by
  induction l₁ with
  | nil => simp [specGlobalsList]
  | cons c cs ih =>
      rw [List.cons_append, specGlobalsList, specGlobalsList]
      simp [List.mem_append, ih, or_assoc]

/-- The reference characterisation is order-independent as a set. -/
theorem mem_specGlobalsList_reverse (x : String) (l : List Node) :
    x ∈ specGlobalsList l.reverse ↔ x ∈ specGlobalsList l := by
  simp [mem_specGlobalsList]

/-- Joint strong induction: the worklist pass collects exactly the
accumulator plus the names the reference characterisation assigns to the
stacked subtrees. -/
theorem collectGlobals_mem_aux (k : Nat) :
    ∀ stack acc x, nsizeL stack ≤ k →
      (x ∈ collectGlobals stack acc ↔
        x ∈ acc ∨ x ∈ specGlobalsList stack) := by
  induction k with
  | zero =>
      intro stack acc x h
      cases stack with
      | nil => simp [collectGlobals, specGlobalsList]
      | cons c cs => exfalso; have := nsize_pos c; simp [nsizeL] at h; omega
  | succ n ih =>
      intro stack acc x h
      cases stack with
      | nil => simp [collectGlobals, specGlobalsList]
      | cons c cs =>
          simp only [nsizeL] at h
          have hc := nsize_pos c
          cases c with
          | globalStmt l col names =>
              rw [collectGlobals, ih cs _ x (by omega), specGlobalsList]
              simp [specGlobalsIn, List.mem_append, or_assoc]
          | functiondef l col nm args body decos ft gn =>
              rw [collectGlobals, ih cs _ x (by omega), specGlobalsList]
              simp [specGlobalsIn]
          | classdef l col nm body decos =>
              rw [collectGlobals, ih cs _ x (by omega), specGlobalsList]
              simp [specGlobalsIn]
          | assign l col targets value =>
              rw [collectGlobals,
                ih _ _ x (by
                  have := nsizeL_iter_lt (Node.assign l col targets value)
                  simp only [nsizeL_append, nsizeL_reverse]; omega),
                specGlobalsList, mem_specGlobalsList_append,
                mem_specGlobalsList_reverse]
              · simp [specGlobalsIn, List.mem_append, or_assoc]
              all_goals intros
              all_goals simp_all
          | call l col f a =>
              rw [collectGlobals,
                ih _ _ x (by
                  have := nsizeL_iter_lt (Node.call l col f a)
                  simp only [nsizeL_append, nsizeL_reverse]; omega),
                specGlobalsList, mem_specGlobalsList_append,
                mem_specGlobalsList_reverse]
              · simp [specGlobalsIn, List.mem_append, or_assoc]
              all_goals intros
              all_goals simp_all
          | name l col i =>
              rw [collectGlobals,
                ih _ _ x (by
                  have := nsizeL_iter_lt (Node.name l col i)
                  simp only [nsizeL_append, nsizeL_reverse]; omega),
                specGlobalsList, mem_specGlobalsList_append,
                mem_specGlobalsList_reverse]
              · simp [specGlobalsIn, List.mem_append, or_assoc]
              all_goals intros
              all_goals simp_all
          | importfrom l col ns =>
              rw [collectGlobals,
                ih _ _ x (by
                  have := nsizeL_iter_lt (Node.importfrom l col ns)
                  simp only [nsizeL_append, nsizeL_reverse]; omega),
                specGlobalsList, mem_specGlobalsList_append,
                mem_specGlobalsList_reverse]
              · simp [specGlobalsIn, List.mem_append, or_assoc]
              all_goals intros
              all_goals simp_all
          | other l col kd ch =>
              rw [collectGlobals,
                ih _ _ x (by
                  have := nsizeL_iter_lt (Node.other l col kd ch)
                  simp only [nsizeL_append, nsizeL_reverse]; omega),
                specGlobalsList, mem_specGlobalsList_append,
                mem_specGlobalsList_reverse]
              · simp [specGlobalsIn, List.mem_append, or_assoc]
              all_goals intros
              all_goals simp_all

/-- Membership characterisation of the worklist pass. -/
theorem collectGlobals_mem (stack : List Node) (acc : List String)
    (x : String) :
    x ∈ collectGlobals stack acc ↔ x ∈ acc ∨ x ∈ specGlobalsList stack :=
  collectGlobals_mem_aux (nsizeL stack) stack acc x le_rfl

/-! ## Helper lemmas about the role annotator -/

/-- Key lookup skips an association segment containing no entry for the
key. -/
theorem lookup_append_of_no_key (k : String) :
    ∀ (l₁ l₂ : List (String × String)), (∀ q ∈ l₁, q.1 ≠ k) →
      List.lookup k (l₁ ++ l₂) = List.lookup k l₂ := by
  intro l₁ l₂ h
  induction l₁ with
  | nil => rfl
  | cons a t ih =>
      have ha : a.1 ≠ k := h a (List.mem_cons_self a t)
      have hk : (k == a.1) = false := by
        simp [ha.symm]
      cases a with
      | mk a₁ a₂ =>
          simp only [List.cons_append, List.lookup, hk]
          exact ih (fun q hq => h q (List.mem_cons_of_mem _ hq))

/-- Python `dict` insertion order: the lookup returns the value of the
last recorded entry for the key; entries recorded after it for other keys
do not interfere. -/
theorem dictFind_last (pre post : List (String × String)) (k v : String)
    (hpost : ∀ q ∈ post, q.1 ≠ k) :
    dictFind (pre ++ (k, v) :: post) k = some v := by
  unfold dictFind
  rw [List.reverse_append, List.reverse_cons, List.append_assoc,
    lookup_append_of_no_key k post.reverse _
      (fun q hq => hpost q (List.mem_reverse.1 hq))]
  simp [List.lookup]

/-- The late-decoration scan distributes over list concatenation. -/
theorem lateDecoration_append (l₁ l₂ : List Node) :
    lateDecoration (l₁ ++ l₂) = lateDecoration l₁ ++ lateDecoration l₂ :=
  List.flatMap_append ..

/-- The late-decoration scan of a singleton wrapping assignment records
exactly its entry. -/
theorem lateDecoration_cons (n : Node) (rest : List Node) :
    lateDecoration (n :: rest) = lateDecorationEntry n ++ lateDecoration rest :=
  List.flatMap_cons ..

/-! ## The claims -/

/-- C3: for every invocation of `run` where the input tree is absent (the
upstream parser produced nothing), `run` returns the empty diagnostic
sequence; as a total function of the embedding it cannot raise. -/
theorem C3_run_absent_tree (visitors : List Rule) :
    ASTChecker.run visitors none = [] := rfl

/-- C6: a diagnostic built by `_err` against a `ClassDef` with `d`
decorators reports at line `lineno + d`, column `col_offset + 6`; against
a `FunctionDef` with `d` decorators at line `lineno + d`, column
`col_offset + 4`; in particular a `ClassDef` at (10, 3) preceded by 2
decorator lines reports at line 12, column 9. -/
theorem C6_decorator_offset (self : Rule) (code : String)
    (lc cc : Nat) (cn : String) (cbody cdecos : List Node)
    (fl fc : Nat) (fn : String) (args : Arguments) (fbody fdecos : List Node)
    (ft : Option String) (gn : Option (List String)) :
    err self (Node.classdef lc cc cn cbody cdecos) code
      = ⟨lc + cdecos.length, cc + 6, code ++ " " ++ codeText self code, self⟩
    ∧ err self (Node.functiondef fl fc fn args fbody fdecos ft gn) code
      = ⟨fl + fdecos.length, fc + 4, code ++ " " ++ codeText self code, self⟩
    ∧ err Rule.classNameCheck
        (Node.classdef 10 3 "C" [] [Node.name 8 1 "d1", Node.name 9 1 "d2"])
        "E800"
      = ⟨12, 9, "E800 " ++ ClassNameCheck.E800, Rule.classNameCheck⟩ :=
  ⟨rfl, rfl, rfl⟩

/-- C2: the `global_names` annotation computed by `find_global_defs` for a
`FunctionDef` contains exactly the names listed in `global` declarations
reachable from its children without descending into nested
`FunctionDef`/`ClassDef` nodes (the reference characterisation
`specGlobalsIn`/`specGlobalsList`); in particular a `global x` inside a
nested `FunctionDef` or `ClassDef` contributes nothing, because the
characterisation assigns nested definition nodes the empty name list. -/
theorem C2_global_name_set :
    (∀ (l c : Nat) (nm : String) (args : Arguments) (body decos : List Node)
       (ft : Option String) (gn : Option (List String)),
       ∃ G, globalNamesOf (ASTChecker.find_global_defs
              (Node.functiondef l c nm args body decos ft gn)) = some G
         ∧ ∀ x, (x ∈ G ↔ x ∈ specGlobalsList
              (ast_iter_nodes (Node.functiondef l c nm args body decos ft gn))))
    ∧ (∀ (l c : Nat) (nm : String) (args : Arguments) (body decos : List Node)
         (ft : Option String) (gn : Option (List String)),
         specGlobalsIn (Node.functiondef l c nm args body decos ft gn) = [])
    ∧ (∀ (l c : Nat) (nm : String) (body decos : List Node),
         specGlobalsIn (Node.classdef l c nm body decos) = []) := by
  refine ⟨?_, ?_, ?_⟩
  · intro l c nm args body decos ft gn
    refine ⟨collectGlobals (ast_iter_nodes
        (Node.functiondef l c nm args body decos ft gn)).reverse [], rfl, ?_⟩
    intro x
    rw [collectGlobals_mem, mem_specGlobalsList_reverse]
    simp
  · intro l c nm args body decos ft gn
    simp [specGlobalsIn]
  · intro l c nm body decos
    simp [specGlobalsIn]

/-- C5: for every tree and every fixed rule registry, the diagnostics of
`_run` are dispatched over the observation sequence — so all diagnostics
of a node come before any diagnostic of its descendants — the observation
sequence is the pre-order listing (node first, then the children's
observations concatenated in child order, which makes sibling subtrees
appear in source/child order), and within one node the rules are invoked
in registry order (`visitors.flatMap`). -/
theorem C5_preorder_dispatch (visitors : List Rule) (parents : List Node)
    (t : Node) :
    ASTChecker.runFrom visitors parents t
      = (observedFrom parents t).flatMap
          (fun p => visitors.flatMap (fun r => r.visit p.1 p.2))
    ∧ observedFrom parents t
      = (visitPre t, parents) ::
          (ast_iter_nodes (visitPre t)).flatMap
            (observedFrom (parents ++ [visitPre t])) := by
  constructor
  · exact runFrom_eq_observed visitors parents t
  · rw [observedFrom, observedList_eq_flatMap]

/-- C4: every `FunctionDef` a registered rule observes during the
traversal (the dispatched stream is exactly `observedFrom`, first
conjunct) carries its `global_names` annotation (`∃ g, gn = some g`) and
exactly one role — the observed `function_type` field together with the
`getattr` default determines a unique role — and re-running the
annotation step on an observed node changes nothing
(`visitPre p.1 = p.1`), so the annotations are fixed once assigned. -/
theorem C4_annotated_before_observed (visitors : List Rule)
    (parents : List Node) (t : Node) :
    ASTChecker.runFrom visitors parents t
      = (observedFrom parents t).flatMap (fun p => visitRules visitors p.1 p.2)
    ∧ ∀ p ∈ observedFrom parents t,
        ∀ l c nm args body decos ft gn,
          p.1 = Node.functiondef l c nm args body decos ft gn →
          (∃ g, gn = some g) ∧ visitPre p.1 = p.1 := by
  constructor
  · exact runFrom_eq_observed visitors parents t
  · intro p hp
    exact (observed_invariant_both (nsize t)).1 parents t p le_rfl hp

/-- Witness for C4: on the concrete one-node tree `def f(): pass`, the
observed node carries `global_names = some []` and is annotation-stable. -/
theorem C4_annotated_before_observed_witness :
    (∃ g, (some ([] : List String)) = some g)
    ∧ visitPre (Node.functiondef 1 0 "f" ⟨[], none, [], none⟩ [] [] none (some []))
        = Node.functiondef 1 0 "f" ⟨[], none, [], none⟩ [] [] none (some []) := by
  have h0 : visitPre (Node.functiondef 1 0 "f" ⟨[], none, [], none⟩ [] [] none none)
      = Node.functiondef 1 0 "f" ⟨[], none, [], none⟩ [] [] none (some []) := by
    simp [visitPre, ASTChecker.find_global_defs, ast_iter_nodes, collectGlobals]
  have hmem :
      (Node.functiondef 1 0 "f" ⟨[], none, [], none⟩ [] [] none (some []),
        ([] : List Node))
      ∈ observedFrom []
          (Node.functiondef 1 0 "f" ⟨[], none, [], none⟩ [] [] none none) := by
    rw [observedFrom, h0]
    exact List.mem_cons_self _ _
  exact (C4_annotated_before_observed [] []
      (Node.functiondef 1 0 "f" ⟨[], none, [], none⟩ [] [] none none)).2
    _ hmem 1 0 "f" ⟨[], none, [], none⟩ [] [] none (some []) rfl

/-- C1: role inference is stable under decoration style.  For a direct
`FunctionDef` child of a `ClassDef`: (a) if its name is mapped by the
late-decoration scan (`f = staticmethod(f)` style), `tag_class_functions`
assigns exactly the mapped role, regardless of any decorators — the
assignment-style decoration determines the role when both are present;
(b) if its name is not mapped and it carries a bare
`staticmethod`/`classmethod` decorator, the same role is assigned from
the decorator, so both decoration styles yield the same role; (c) a body
assignment `anything = staticmethod(f)`/`anything = classmethod(f)` that
is not followed by another wrapping assignment for the same function name
puts exactly that role into the mapping (the Python `dict` gives the last
wrapping assignment for a name precedence). -/
theorem C1_assignment_style_decoration
    (lc cc : Nat) (cn : String) (body decos : List Node)
    (fl fc : Nat) (nm : String) (args : Arguments)
    (fbody fdecos : List Node) (ft : Option String)
    (gn : Option (List String)) (i : Nat)
    (hi : body[i]? = some (Node.functiondef fl fc nm args fbody fdecos ft gn)) :
    (∀ w, dictFind (lateDecoration (ast_iter_nodes
          (Node.classdef lc cc cn body decos))) nm = some w →
        (classBody (ASTChecker.tag_class_functions
            (Node.classdef lc cc cn body decos)))[i]?
          = some (Node.functiondef fl fc nm args fbody fdecos (some w) gn))
    ∧ (∀ w rest,
        dictFind (lateDecoration (ast_iter_nodes
          (Node.classdef lc cc cn body decos))) nm = none →
        decoratorRoleNames fdecos = w :: rest →
        (classBody (ASTChecker.tag_class_functions
            (Node.classdef lc cc cn body decos)))[i]?
          = some (Node.functiondef fl fc nm args fbody fdecos (some w) gn))
    ∧ (∀ (pre post tgts : List Node) (al ac cl ccol nl nc ml mc : Nat)
        (w : String),
        (w = "classmethod" ∨ w = "staticmethod") →
        body = pre ++ Node.assign al ac tgts
            (Node.call cl ccol (Node.name nl nc w) [Node.name ml mc nm]) :: post →
        (∀ q ∈ lateDecoration (post ++ decos), q.1 ≠ nm) →
        dictFind (lateDecoration (ast_iter_nodes
          (Node.classdef lc cc cn body decos))) nm = some w) := by
  refine ⟨?_, ?_, ?_⟩
  · intro w hw
    simp only [ASTChecker.tag_class_functions, classBody]
    rw [List.getElem?_map, hi]
    simp [tagFunction, hw]
  · intro w rest hnone hdeco
    have hne : fdecos ≠ [] := by
      intro hemp
      rw [hemp] at hdeco
      simp [decoratorRoleNames] at hdeco
    simp only [ASTChecker.tag_class_functions, classBody]
    rw [List.getElem?_map, hi]
    simp [tagFunction, hnone, hdeco, List.isEmpty_iff, hne]
  · intro pre post tgts al ac cl ccol nl nc ml mc w hw hbody hpost
    have hentry : lateDecorationEntry (Node.assign al ac tgts
        (Node.call cl ccol (Node.name nl nc w) [Node.name ml mc nm]))
        = [(nm, w)] := by
      rcases hw with h | h <;> subst h <;> rfl
    have hshape : ast_iter_nodes (Node.classdef lc cc cn body decos)
        = pre ++ Node.assign al ac tgts
            (Node.call cl ccol (Node.name nl nc w) [Node.name ml mc nm])
              :: (post ++ decos) := by
      simp [ast_iter_nodes, hbody]
    rw [hshape, lateDecoration_append, lateDecoration_cons, hentry]
    have : lateDecoration pre ++ ([(nm, w)] ++ lateDecoration (post ++ decos))
        = lateDecoration pre ++ (nm, w) :: lateDecoration (post ++ decos) := by
      simp
    rw [this]
    exact dictFind_last _ _ nm w hpost

/-- Witness for C1: `class C: def f(x) ... ; f = staticmethod(f)` tags `f`
as a staticmethod; `class D: @staticmethod def g(x) ...` tags `g` the same
way; and on `C` the wrapping assignment indeed puts
`f -> staticmethod` into the mapping. -/
theorem C1_assignment_style_decoration_witness :
    (classBody (ASTChecker.tag_class_functions
        (Node.classdef 1 0 "C"
          [Node.functiondef 2 4 "f" ⟨["x"], none, [], none⟩ [] [] none none,
           Node.assign 3 4 [Node.name 3 4 "f"]
             (Node.call 3 8 (Node.name 3 8 "staticmethod")
               [Node.name 3 21 "f"])]
          [])))[0]?
      = some (Node.functiondef 2 4 "f" ⟨["x"], none, [], none⟩ [] []
          (some "staticmethod") none)
    ∧ (classBody (ASTChecker.tag_class_functions
        (Node.classdef 1 0 "D"
          [Node.functiondef 2 4 "g" ⟨["x"], none, [], none⟩ []
             [Node.name 1 1 "staticmethod"] none none] [])))[0]?
      = some (Node.functiondef 2 4 "g" ⟨["x"], none, [], none⟩ []
          [Node.name 1 1 "staticmethod"] (some "staticmethod") none)
    ∧ dictFind (lateDecoration (ast_iter_nodes
        (Node.classdef 1 0 "C"
          [Node.functiondef 2 4 "f" ⟨["x"], none, [], none⟩ [] [] none none,
           Node.assign 3 4 [Node.name 3 4 "f"]
             (Node.call 3 8 (Node.name 3 8 "staticmethod")
               [Node.name 3 21 "f"])]
          []))) "f" = some "staticmethod" := by
  refine ⟨?_, ?_, ?_⟩
  · exact (C1_assignment_style_decoration 1 0 "C"
      [Node.functiondef 2 4 "f" ⟨["x"], none, [], none⟩ [] [] none none,
       Node.assign 3 4 [Node.name 3 4 "f"]
         (Node.call 3 8 (Node.name 3 8 "staticmethod") [Node.name 3 21 "f"])]
      [] 2 4 "f" ⟨["x"], none, [], none⟩ [] [] none none 0 rfl).1
      "staticmethod" (by decide)
  · exact (C1_assignment_style_decoration 1 0 "D"
      [Node.functiondef 2 4 "g" ⟨["x"], none, [], none⟩ []
        [Node.name 1 1 "staticmethod"] none none]
      [] 2 4 "g" ⟨["x"], none, [], none⟩ []
      [Node.name 1 1 "staticmethod"] none none 0 rfl).2.1
      "staticmethod" [] (by decide) rfl
  · exact (C1_assignment_style_decoration 1 0 "C"
      [Node.functiondef 2 4 "f" ⟨["x"], none, [], none⟩ [] [] none none,
       Node.assign 3 4 [Node.name 3 4 "f"]
         (Node.call 3 8 (Node.name 3 8 "staticmethod") [Node.name 3 21 "f"])]
      [] 2 4 "f" ⟨["x"], none, [], none⟩ [] [] none none 0 rfl).2.2
      [Node.functiondef 2 4 "f" ⟨["x"], none, [], none⟩ [] [] none none] []
      [Node.name 3 4 "f"] 3 4 3 8 3 8 3 21 "staticmethod"
      (Or.inr rfl) rfl (by simp [lateDecoration])

/-- Counterexample to C7 as stated: a `FunctionDef` with role `method`,
first argument `x` (not `self`), but a non-lowercase `**kwargs` name
`KW`.  The argument rule yields only the E802 for the kwargs name and
returns before the self check, so the E804 self diagnostic is not
yielded although role = method and the first argument is not `self`. -/
theorem C7_counterexample :
    functionTypeOf (Node.functiondef 1 0 "f" ⟨["x"], none, [], some "KW"⟩
        [] [] (some "method") none) = some "method"
    ∧ (get_arg_names (Node.functiondef 1 0 "f" ⟨["x"], none, [], some "KW"⟩
        [] [] (some "method") none)).head? = some "x"
    ∧ ("x" : String) ≠ "self"
    ∧ FunctionArgNamesCheck.visit_functiondef
        (Node.functiondef 1 0 "f" ⟨["x"], none, [], some "KW"⟩
          [] [] (some "method") none) []
      = [err Rule.functionArgNamesCheck
          (Node.functiondef 1 0 "f" ⟨["x"], none, [], some "KW"⟩
            [] [] (some "method") none) "E802"]
    ∧ err Rule.functionArgNamesCheck
        (Node.functiondef 1 0 "f" ⟨["x"], none, [], some "KW"⟩
          [] [] (some "method") none) "E804"
      ∉ FunctionArgNamesCheck.visit_functiondef
          (Node.functiondef 1 0 "f" ⟨["x"], none, [], some "KW"⟩
            [] [] (some "method") none) [] := by
  refine ⟨rfl, rfl, by decide, rfl, by decide⟩

/-- C7 (amended): for every `FunctionDef` whose role is `method`, whose
`**kwargs` and `*args` names (when present) pass the lowercase check, and
whose first argument name (first of `get_arg_names`: positional then
keyword-only) is not `self`, the argument rule yields the E804 "self"
diagnostic; and this diagnostic is independent of lowercase-style
violations among the argument names — when such a violation is present,
the E802 diagnostic fires for the same node as well. -/
theorem C7_method_self_diagnostic
    (l c : Nat) (nm : String) (args : Arguments) (body decos : List Node)
    (gn : Option (List String)) (parents : List Node)
    (a0 : String) (rest : List String)
    (hkw : ∀ kw, args.kwarg = some kw → lowercaseMatch kw = true)
    (hva : ∀ va, args.vararg = some va → lowercaseMatch va = true)
    (hargs : args.args ++ args.kwonlyargs = a0 :: rest)
    (hself : a0 ≠ "self") :
    err Rule.functionArgNamesCheck
        (Node.functiondef l c nm args body decos (some "method") gn) "E804"
      ∈ FunctionArgNamesCheck.visit_functiondef
          (Node.functiondef l c nm args body decos (some "method") gn) parents
    ∧ ((∃ a ∈ a0 :: rest, lowercaseMatch a = false) →
        err Rule.functionArgNamesCheck
            (Node.functiondef l c nm args body decos (some "method") gn) "E802"
          ∈ FunctionArgNamesCheck.visit_functiondef
              (Node.functiondef l c nm args body decos (some "method") gn)
              parents) := by
  have hkw' : args.kwarg.any (fun kw => !lowercaseMatch kw) = false := by
    cases hk : args.kwarg with
    | none => rfl
    | some kw => simp [Option.any, hkw kw hk]
  have hva' : args.vararg.any (fun va => !lowercaseMatch va) = false := by
    cases hv : args.vararg with
    | none => rfl
    | some va => simp [Option.any, hva va hv]
  have hga : get_arg_names
      (Node.functiondef l c nm args body decos (some "method") gn)
      = a0 :: rest := hargs
  constructor
  · simp only [FunctionArgNamesCheck.visit_functiondef, hkw', hva', hga,
      Bool.false_eq_true, if_false, Option.getD_some]
    simp [hself]
  · intro hbad
    have hany : (a0 :: rest).any (fun a => !lowercaseMatch a) = true := by
      rcases hbad with ⟨a, ha, hfa⟩
      exact List.any_eq_true.2 ⟨a, ha, by simp [hfa]⟩
    simp only [FunctionArgNamesCheck.visit_functiondef, hkw', hva', hga,
      Bool.false_eq_true, if_false, Option.getD_some, hany]
    simp

/-- Witness for C7 (amended): `def m(x, BAD)` with role `method` yields
both the E804 self diagnostic and the E802 lowercase diagnostic. -/
theorem C7_method_self_diagnostic_witness :
    err Rule.functionArgNamesCheck
        (Node.functiondef 5 2 "m" ⟨["x", "BAD"], none, [], none⟩
          [] [] (some "method") none) "E804"
      ∈ FunctionArgNamesCheck.visit_functiondef
          (Node.functiondef 5 2 "m" ⟨["x", "BAD"], none, [], none⟩
            [] [] (some "method") none) []
    ∧ err Rule.functionArgNamesCheck
        (Node.functiondef 5 2 "m" ⟨["x", "BAD"], none, [], none⟩
          [] [] (some "method") none) "E802"
      ∈ FunctionArgNamesCheck.visit_functiondef
          (Node.functiondef 5 2 "m" ⟨["x", "BAD"], none, [], none⟩
            [] [] (some "method") none) [] := by
  have h := C7_method_self_diagnostic 5 2 "m" ⟨["x", "BAD"], none, [], none⟩
    [] [] none [] "x" ["BAD"]
    (by intro kw hkw; cases hkw) (by intro va hva; cases hva) rfl (by decide)
  exact ⟨h.1, h.2 ⟨"BAD", by decide⟩⟩

/-- C8: for every `ImportFrom` aliased name whose original name is
classified lowercase-style (the cascade tests uppercase-style first, so
classification as lowercase means `UPPERCASE_REGEX` fails and
`LOWERCASE_REGEX` matches) and whose alias is not lowercase-style, the
import-rename rule yields the W801 "lowercase imported as non lowercase"
diagnostic; concretely, `from os import getcwd as GETCWD` yields exactly
that one diagnostic — no other branch fires. -/
theorem C8_import_rename_lowercase :
    (∀ (l c : Nat) (names : List ImportAlias) (parents : List Node)
       (nm : ImportAlias) (asn : String),
       nm ∈ names → nm.asname = some asn → asn ≠ "" →
       uppercaseMatch nm.name = false → lowercaseMatch nm.name = true →
       lowercaseMatch asn = false →
       err Rule.importAsCheck (Node.importfrom l c names) "W801"
         ∈ ImportAsCheck.visit_importfrom (Node.importfrom l c names) parents)
    ∧ ImportAsCheck.visit_importfrom
        (Node.importfrom 3 0 [⟨"getcwd", some "GETCWD"⟩]) []
      = [⟨3, 0, "W801 " ++ ImportAsCheck.W801, Rule.importAsCheck⟩] := by
  constructor
  · intro l c names parents nm asn hmem hasn hne hup hlow hbad
    simp only [ImportAsCheck.visit_importfrom]
    refine List.mem_flatMap.2 ⟨nm, hmem, ?_⟩
    rw [hasn]
    simp [hne, hup, hlow, hbad]
  · decide

/-- Witness for C8: the W801 diagnostic is yielded for
`from os import getcwd as GETCWD`. -/
theorem C8_import_rename_lowercase_witness :
    err Rule.importAsCheck (Node.importfrom 3 0 [⟨"getcwd", some "GETCWD"⟩])
        "W801"
      ∈ ImportAsCheck.visit_importfrom
          (Node.importfrom 3 0 [⟨"getcwd", some "GETCWD"⟩]) [] :=
  C8_import_rename_lowercase.1 3 0 [⟨"getcwd", some "GETCWD"⟩] []
    ⟨"getcwd", some "GETCWD"⟩ "GETCWD" (List.mem_singleton.2 rfl) rfl
    (by decide) (by decide) (by decide) (by decide)

/-- C9: an assignment to a single plain-identifier target inside a
function body, whose name is not in the enclosing function's
`global_names`, does not match lowercase style, is a nonempty identifier
and does not begin with `_`, yields exactly one E805 diagnostic (at the
target's own position); if the name is in the enclosing function's
`global_names` (e.g. the function contains `global X`), the same
assignment yields zero diagnostics. -/
theorem C9_local_variable_rule (al ac tl tc : Nat) (x : String)
    (value : Node) (parents : List Node) (fl fc : Nat) (fn : String)
    (fargs : Arguments) (fbody fdecos : List Node) (ft : Option String)
    (gns : List String)
    (hscope : enclosingScope parents.reverse
      = some (Node.functiondef fl fc fn fargs fbody fdecos ft (some gns))) :
    (x ∉ gns → x ≠ "" → lowercaseMatch x = false → x.take 1 ≠ "_" →
      VariablesInFunctionCheck.visit_assign
          (Node.assign al ac [Node.name tl tc x] value) parents
        = [err Rule.variablesInFunctionCheck (Node.name tl tc x) "E805"])
    ∧ (x ∈ gns →
      VariablesInFunctionCheck.visit_assign
          (Node.assign al ac [Node.name tl tc x] value) parents = []) := by
  constructor
  · intro hnotin hne hlow hund
    simp only [VariablesInFunctionCheck.visit_assign, hscope, globalNamesOf,
      Option.getD_some]
    simp [checkAssignTargets, hne, hnotin, hlow, hund]
  · intro hin
    simp only [VariablesInFunctionCheck.visit_assign, hscope, globalNamesOf,
      Option.getD_some]
    simp [checkAssignTargets, hin]

/-- Witness for C9: inside `def f(): X = 5`, the assignment `X = 5` yields
one E805 diagnostic; inside `def g(): global X; X = 5` it yields none. -/
theorem C9_local_variable_rule_witness :
    VariablesInFunctionCheck.visit_assign
        (Node.assign 2 4 [Node.name 2 4 "X"] (Node.other 2 8 "num" []))
        [Node.functiondef 1 0 "f" ⟨[], none, [], none⟩ [] [] none (some [])]
      = [err Rule.variablesInFunctionCheck (Node.name 2 4 "X") "E805"]
    ∧ VariablesInFunctionCheck.visit_assign
        (Node.assign 3 4 [Node.name 3 4 "X"] (Node.other 3 8 "num" []))
        [Node.functiondef 1 0 "g" ⟨[], none, [], none⟩ [] [] none
          (some ["X"])]
      = [] := by
  constructor
  · exact (C9_local_variable_rule 2 4 2 4 "X" (Node.other 2 8 "num" [])
      [Node.functiondef 1 0 "f" ⟨[], none, [], none⟩ [] [] none (some [])]
      1 0 "f" ⟨[], none, [], none⟩ [] [] none [] rfl).1
      (by decide) (by decide) (by decide) (by decide)
  · exact (C9_local_variable_rule 3 4 3 4 "X" (Node.other 3 8 "num" [])
      [Node.functiondef 1 0 "g" ⟨[], none, [], none⟩ [] [] none (some ["X"])]
      1 0 "g" ⟨[], none, [], none⟩ [] [] none ["X"] rfl).2
      (by decide)

/-- C10 (implicit): the argument-naming rule yields at most one E802
lowercase diagnostic per visit — the `**kwargs` name is checked first,
then the `*args` name, then the argument names in order with the loop
returning at the first violation, so later violating names go unreported —
and a violating `**kwargs` (resp. `*args`, with `**kwargs` passing) name
makes the whole visit return exactly the one E802, before the self/cls
first-argument checks, suppressing those diagnostics for the node. -/
theorem C10_argname_rule_short_circuit (l c : Nat) (nm : String)
    (args : Arguments) (body decos : List Node) (ft : Option String)
    (gn : Option (List String)) (parents : List Node) :
    ((FunctionArgNamesCheck.visit_functiondef
        (Node.functiondef l c nm args body decos ft gn) parents).countP
          (fun d => d.message == "E802 " ++ FunctionArgNamesCheck.E802) ≤ 1)
    ∧ (∀ kw, args.kwarg = some kw → lowercaseMatch kw = false →
        FunctionArgNamesCheck.visit_functiondef
            (Node.functiondef l c nm args body decos ft gn) parents
          = [err Rule.functionArgNamesCheck
              (Node.functiondef l c nm args body decos ft gn) "E802"])
    ∧ (∀ va, (∀ kw, args.kwarg = some kw → lowercaseMatch kw = true) →
        args.vararg = some va → lowercaseMatch va = false →
        FunctionArgNamesCheck.visit_functiondef
            (Node.functiondef l c nm args body decos ft gn) parents
          = [err Rule.functionArgNamesCheck
              (Node.functiondef l c nm args body decos ft gn) "E802"]) := by
  refine ⟨?_, ?_, ?_⟩
  · simp only [FunctionArgNamesCheck.visit_functiondef]
    by_cases hk : args.kwarg.any (fun kw => !lowercaseMatch kw) = true
    · simp only [hk, if_true]
      exact (List.countP_le_length _).trans (by simp)
    · rw [Bool.not_eq_true] at hk
      simp only [hk, Bool.false_eq_true, if_false]
      by_cases hv : args.vararg.any (fun va => !lowercaseMatch va) = true
      · simp only [hv, if_true]
        exact (List.countP_le_length _).trans (by simp)
      · rw [Bool.not_eq_true] at hv
        simp only [hv, Bool.false_eq_true, if_false]
        cases hga : get_arg_names
            (Node.functiondef l c nm args body decos ft gn) with
        | nil => simp
        | cons a0 rest =>
            rw [List.countP_append]
            have hmsg₄ : (("E804 " ++ codeText Rule.functionArgNamesCheck "E804")
                == ("E802 " ++ FunctionArgNamesCheck.E802)) = false := by decide
            have hmsg₃ : (("E803 " ++ codeText Rule.functionArgNamesCheck "E803")
                == ("E802 " ++ FunctionArgNamesCheck.E802)) = false := by decide
            have hself : (if ft.getD "function" == "method" then
                  (if a0 != "self" then
                    [err Rule.functionArgNamesCheck
                      (Node.functiondef l c nm args body decos ft gn) "E804"]
                  else [])
                else if ft.getD "function" == "classmethod" then
                  (if a0 != "cls" then
                    [err Rule.functionArgNamesCheck
                      (Node.functiondef l c nm args body decos ft gn) "E803"]
                  else [])
                else []).countP
                  (fun d => d.message == "E802 " ++ FunctionArgNamesCheck.E802)
                = 0 := by
              split_ifs <;>
                simp [List.countP_cons, err, hmsg₄, hmsg₃]
            rw [hself]
            have hloop : ((if (a0 :: rest).any (fun a => !lowercaseMatch a) then
                  [err Rule.functionArgNamesCheck
                    (Node.functiondef l c nm args body decos ft gn) "E802"]
                else []) : List Diagnostic).countP
                  (fun d => d.message == "E802 " ++ FunctionArgNamesCheck.E802)
                ≤ 1 := by
              split_ifs
              · exact (List.countP_le_length _).trans (by simp)
              · simp
            omega
  · intro kw hkw hbad
    have hk : args.kwarg.any (fun k => !lowercaseMatch k) = true := by
      rw [hkw]; simp [Option.any, hbad]
    simp [FunctionArgNamesCheck.visit_functiondef, hk]
  · intro va hkwok hva hbad
    have hk : args.kwarg.any (fun k => !lowercaseMatch k) = false := by
      cases h : args.kwarg with
      | none => rfl
      | some kw => simp [Option.any, hkwok kw h]
    have hv : args.vararg.any (fun v => !lowercaseMatch v) = true := by
      rw [hva]; simp [Option.any, hbad]
    simp [FunctionArgNamesCheck.visit_functiondef, hk, hv]

/-- Witness for C10: `def f(BAD1, BAD2)` produces at most one E802;
`def g(ok, *v, **KW)` yields exactly the kwargs E802 (suppressing the
rest); `def h(ok, *VA, **kw)` yields exactly the varargs E802. -/
theorem C10_argname_rule_short_circuit_witness :
    ((FunctionArgNamesCheck.visit_functiondef
        (Node.functiondef 1 0 "f" ⟨["BAD1", "BAD2"], none, [], none⟩
          [] [] none none) []).countP
          (fun d => d.message == "E802 " ++ FunctionArgNamesCheck.E802) ≤ 1)
    ∧ FunctionArgNamesCheck.visit_functiondef
        (Node.functiondef 1 0 "g" ⟨["ok"], some "v", [], some "KW"⟩
          [] [] (some "method") none) []
      = [err Rule.functionArgNamesCheck
          (Node.functiondef 1 0 "g" ⟨["ok"], some "v", [], some "KW"⟩
            [] [] (some "method") none) "E802"]
    ∧ FunctionArgNamesCheck.visit_functiondef
        (Node.functiondef 1 0 "h" ⟨["ok"], some "VA", [], some "kw"⟩
          [] [] (some "method") none) []
      = [err Rule.functionArgNamesCheck
          (Node.functiondef 1 0 "h" ⟨["ok"], some "VA", [], some "kw"⟩
            [] [] (some "method") none) "E802"] := by
  refine ⟨?_, ?_, ?_⟩
  · exact (C10_argname_rule_short_circuit 1 0 "f"
      ⟨["BAD1", "BAD2"], none, [], none⟩ [] [] none none []).1
  · exact (C10_argname_rule_short_circuit 1 0 "g"
      ⟨["ok"], some "v", [], some "KW"⟩ [] [] (some "method") none []).2.1
      "KW" rfl (by decide)
  · exact (C10_argname_rule_short_circuit 1 0 "h"
      ⟨["ok"], some "VA", [], some "kw"⟩ [] [] (some "method") none []).2.2
      "VA" (by intro kw hkw; cases hkw; decide) rfl (by decide)
